import Mathlib

/-!
Verification of the process-execution-and-streaming subsystem implemented in
src/core/src/ten_manager/src/designer/exec/cmd_run.rs.

The embedding models:
  * the outbound event vocabulary (OutboundMsg / RunCmdOutput);
  * the stdout/stderr reader loops (BufReader lines loop with the
    non-blocking shutdown check and the log-mode branch);
  * the watcher thread (crossbeam select loop, kill-on-cancel path,
    completion-signal joins, single Exit emission);
  * the synchronous launch prefix of cmd_run (working-directory
    normalization/validation and spawn error handling);
  * kill_process_tree / collect_child_processes over a process-table
    snapshot;
  * cleanup_threads over the session state.

The external log parser (crate::log::process_log_line) and its context type
GraphResourcesLog live outside the analyzed file; they are abstracted as a
type parameter M for metadata, a type parameter C for the parse context and
a function parameter parse : String -> C -> Option M x C.

Cross-thread behaviour is modelled by traces of thread-local actions and a
Shuffle (interleaving) relation together with the one-shot channel ordering
discipline (a receive can only happen after the matching send).
-/

namespace TenExec

/-- The stream a reader worker serves: stdout or stderr. -/
inductive StreamId : Type where
  | out : StreamId
  | err : StreamId
deriving DecidableEq

/-- Outbound events sent to the websocket actor, the union of the
OutboundMsg::Error case and the RunCmdOutput variants used by cmd_run.
M is the type of the structured log metadata produced by the external
parser (LogLineInfo.metadata). -/
inductive OutputEvent (M : Type) : Type where
  | error (msg : String)
  | stdOutNormal (line : String)
  | stdOutLog (line : String) (metadata : Option M)
  | stdErrNormal (line : String)
  | stdErrLog (line : String) (metadata : Option M)
  | exit (code : Int)
deriving DecidableEq

/-- Thread-local actions of the three workers and of the main thread:
event emissions (addr.do_send), completion-signal sends and receives
(done_tx.send / done_rx.recv), and the OS calls performed by the watcher. -/
inductive Act (M : Type) : Type where
  | emit (e : OutputEvent M)
  | sendDone (s : StreamId)
  | recvDone (s : StreamId)
  | killTree (pid : Nat)
  | killChild
  | waitChild
  | sleepMs (ms : Nat)
deriving DecidableEq

/-- One item yielded by the BufReader lines iterator: a successfully read
line, or a read error (which the reader treats as stream end). EOF is the
end of the list. -/
inductive ReadResult : Type where
  | ok (line : String)
  | err
deriving DecidableEq

/-- The plain-line event for a stream (RunCmdOutput::StdOutNormal /
RunCmdOutput::StdErrNormal). -/
def plainEvent {M : Type} (s : StreamId) (line : String) : OutputEvent M :=
  match s with
  | .out => .stdOutNormal line
  | .err => .stdErrNormal line

/-- The log-record event for a stream (RunCmdOutput::StdOutLog /
RunCmdOutput::StdErrLog carrying a LogLineInfo). -/
def logEvent {M : Type} (s : StreamId) (line : String) (metadata : Option M) : OutputEvent M :=
  match s with
  | .out => .stdOutLog line metadata
  | .err => .stdErrLog line metadata

/-- The reader loop body (the for-loop over reader.lines() in cmd_run).
The cancellation signal is modelled by a countdown: cancelIn = some n
means the shutdown message becomes available at the n-th upcoming
try_recv check (so some 0 means the next check already sees it), and
none means the signal is never sent. Before consuming each yielded item
the loop checks the signal and breaks if it is set; a read error breaks
the loop; otherwise the line is emitted either through the external log
parser (log-mode) or verbatim. -/
def readerLoop {M C : Type} (isLog : Bool) (parse : String → C → Option M × C) (s : StreamId) :
    Option Nat → C → List ReadResult → List (Act M)
  | _, _, [] => []
  | cancelIn, ctx, r :: rest =>
    if cancelIn = some 0 then
      []
    else
      match r with
      | .err => []
      | .ok line =>
        if isLog then
          Act.emit (logEvent s line (parse line ctx).1) ::
            readerLoop isLog parse s (cancelIn.map (fun n => n - 1)) (parse line ctx).2 rest
        else
          Act.emit (plainEvent s line) ::
            readerLoop isLog parse s (cancelIn.map (fun n => n - 1)) ctx rest

/-- A captured stream's whole worker trace: the loop actions followed by
exactly one completion-signal send (the done_tx.send after the loop). -/
def readerTrace {M C : Type} (isLog : Bool) (parse : String → C → Option M × C) (s : StreamId)
    (cancelIn : Option Nat) (ctx : C) (reads : List ReadResult) : List (Act M) :=
  readerLoop isLog parse s cancelIn ctx reads ++ [Act.sendDone s]

/-- The trace produced on behalf of one stream: the reader worker's trace
when the pipe was captured, and the immediate completion-signal send done
by cmd_run itself when the pipe was never opened (no worker started). -/
def streamTrace {M C : Type} (captured : Bool) (isLog : Bool)
    (parse : String → C → Option M × C) (s : StreamId)
    (cancelIn : Option Nat) (ctx : C) (reads : List ReadResult) : List (Act M) :=
  if captured then readerTrace isLog parse s cancelIn ctx reads else [Act.sendDone s]

/-- One iteration outcome of the watcher's crossbeam select loop:
either the shutdown message is available (cancel, carrying the later
child.wait() outcome: none = Err, some c = Ok status with status.code() = c),
or the default branch ran child.try_wait() which reported an exited status,
a still-running child, or an error. -/
inductive Poll : Type where
  | cancel (waitRes : Option (Option Int))
  | exited (code : Option Int)
  | stillRunning
  | waitErr
deriving DecidableEq

/-- Exit code obtained on the cancellation path:
match child.wait() with Ok(status) => status.code().unwrap_or(-1),
Err(_) => -1. -/
def cancelExitCode : Option (Option Int) → Int
  | none => -1
  | some c => c.getD (-1)

/-- The watcher's wait loop (the crossbeam select loop in cmd_run), driven
by the schedule of per-iteration outcomes. Returns none when the schedule
ends with the child still running (the real loop would keep polling), and
otherwise the exit code together with the OS actions performed before the
loop broke. On cancellation it kills the process tree, force-kills the
child and blocks in wait; on a try_wait error it breaks with -1; while the
child is still running it sleeps 50ms and retries. -/
def watcherLoop (M : Type) (pid : Nat) : List Poll → Option (Int × List (Act M))
  | [] => none
  | p :: rest =>
    match p with
    | .cancel w => some (cancelExitCode w, [Act.killTree pid, Act.killChild, Act.waitChild])
    | .exited c => some (c.getD (-1), [])
    | .stillRunning =>
      match watcherLoop M pid rest with
      | none => none
      | some (code, acts) => some (code, Act.sleepMs 50 :: acts)
    | .waitErr => some (-1, [])

/-- What the watcher does after the child has exited: block on the stdout
completion signal if stdout was captured, then on the stderr completion
signal if stderr was captured, then emit the single Exit event. -/
def watcherTail (M : Type) (hasStdout hasStderr : Bool) (code : Int) : List (Act M) :=
  (if hasStdout then [Act.recvDone StreamId.out] else []) ++
    (if hasStderr then [Act.recvDone StreamId.err] else []) ++
    [Act.emit (OutputEvent.exit code)]

/-- The complete trace of the watcher worker for a schedule on which the
wait loop terminates with exit code code and loop actions acts. -/
def watcherTrace (M : Type) (hasStdout hasStderr : Bool)
    (code : Int) (acts : List (Act M)) : List (Act M) :=
  acts ++ watcherTail M hasStdout hasStderr code

/-- The child handle returned by a successful Command::spawn: its pid and
whether the stdout/stderr pipes were opened for capture. -/
structure Child : Type where
  pid : Nat
  stdoutPipe : Bool
  stderrPipe : Bool
deriving DecidableEq

/-- The observable result of the synchronous part of cmd_run: the events
written directly to the websocket (ctx.text), whether the session was
closed (ctx.close), whether a child was spawned, which worker threads were
started, the working directory installed on the command, whether self.child
still holds the handle when cmd_run returns, and whether the shutdown
senders were stored on the session. -/
structure LaunchResult (M : Type) : Type where
  immediateEvents : List (OutputEvent M)
  sessionClosed : Bool
  spawned : Bool
  stdoutWorker : Bool
  stderrWorker : Bool
  watcherWorker : Bool
  currentDir : Option String
  childInSession : Bool
  sendersStored : Bool
deriving DecidableEq

/-- Working-directory normalization: on unix-family targets every
backslash is replaced by a forward slash (dir.replace with a char
pattern); on windows-family targets the directory is kept as is. -/
def normalizeDir (unixLike : Bool) (d : String) : String :=
  if unixLike then ⟨d.data.map (fun c => if c = '\\' then '/' else c)⟩ else d

/-- The spawn step and thread startup of cmd_run, given the directory that
was installed on the command (already normalized and validated, or none).
A spawn error produces one Error event and closes the session with no
worker started; success starts one reader worker per opened pipe and the
watcher worker, and transfers the child handle out of the session
(self.child.take() in the watcher spawn). -/
def spawnPhase (M : Type) (dir : Option String) (spawnResult : Except String Child) :
    LaunchResult M :=
  match spawnResult with
  | .error e =>
    { immediateEvents := [OutputEvent.error ("Failed to spawn command: " ++ e)]
      sessionClosed := true
      spawned := false
      stdoutWorker := false
      stderrWorker := false
      watcherWorker := false
      currentDir := dir
      childInSession := false
      sendersStored := true }
  | .ok c =>
    { immediateEvents := []
      sessionClosed := false
      spawned := true
      stdoutWorker := c.stdoutPipe
      stderrWorker := c.stderrPipe
      watcherWorker := true
      currentDir := dir
      childInSession := false
      sendersStored := true }

/-- The synchronous prefix of cmd_run: store the shutdown senders, then
validate the (normalized) working directory if one is configured — a
missing or non-directory path yields one Error event and closes the
session with nothing spawned — and then run the spawn phase.
validDir models dir_path.exists() && dir_path.is_dir() on the host
filesystem; spawnResult models the outcome command.spawn() would have. -/
def cmd_run_setup (M : Type) (unixLike : Bool) (validDir : String → Bool)
    (workingDirectory : Option String) (spawnResult : Except String Child) : LaunchResult M :=
  match workingDirectory with
  | none => spawnPhase M none spawnResult
  | some d =>
    if validDir (normalizeDir unixLike d) then
      spawnPhase M (some (normalizeDir unixLike d)) spawnResult
    else
      { immediateEvents :=
          [OutputEvent.error
            ("Working directory does not exist or is not a directory: " ++
              normalizeDir unixLike d)]
        sessionClosed := true
        spawned := false
        stdoutWorker := false
        stderrWorker := false
        watcherWorker := false
        currentDir := none
        childInSession := false
        sendersStored := true }

/-- One row of the sysinfo process-table snapshot: a pid and its parent
pid (process.parent()). -/
structure ProcEntry : Type where
  pid : Nat
  ppid : Option Nat
deriving DecidableEq

/-- collect_child_processes: walk the snapshot, and for every entry whose
parent is the given pid first collect its own descendants recursively and
then push the entry itself. The Rust recursion has no explicit bound; it
is embedded with explicit fuel (one unit per tree level), and
kill_process_tree instantiates the fuel with the snapshot size, which is
shown sufficient for every snapshot on which the Rust recursion
terminates. -/
def collect_child_processes (sys : List ProcEntry) : Nat → Nat → List Nat
  | 0, _ => []
  | fuel + 1, parent =>
    ((sys.filter (fun e => decide (e.ppid = some parent))).map
      (fun e => collect_child_processes sys fuel e.pid ++ [e.pid])).flatten

/-- system.process(pid).is_some(): the pid is present in the snapshot. -/
def processAlive (sys : List ProcEntry) (q : Nat) : Bool :=
  sys.any (fun e => decide (e.pid = q))

/-- The kill-candidate list of kill_process_tree: all collected
descendants followed by the root pid itself. -/
def killCandidates (sys : List ProcEntry) (root : Nat) : List Nat :=
  collect_child_processes sys sys.length root ++ [root]

/-- OS actions of kill_process_tree: a SIGTERM-style signal, the fixed
100ms grace sleep, and a SIGKILL-style signal. -/
inductive KillAct : Type where
  | term (pid : Nat)
  | sleep100
  | kill (pid : Nat)
deriving DecidableEq

/-- kill_process_tree: compute the candidates from the first snapshot,
send Term to every candidate still present in that snapshot, sleep 100ms,
refresh the table (second snapshot) and send Kill to every candidate still
present in the refreshed snapshot. -/
def kill_process_tree (sys1 sys2 : List ProcEntry) (root : Nat) : List KillAct :=
  ((killCandidates sys1 root).filter (processAlive sys1)).map KillAct.term ++
    [KillAct.sleep100] ++
    ((killCandidates sys1 root).filter (processAlive sys2)).map KillAct.kill

/-- q is the pid of a snapshot entry whose parent is p. -/
def IsChildOf (sys : List ProcEntry) (q p : Nat) : Prop :=
  ∃ e ∈ sys, e.pid = q ∧ e.ppid = some p

/-- q's parent-pid ancestry traces back to root in the snapshot. -/
inductive Descendant (sys : List ProcEntry) (root : Nat) : Nat → Prop where
  | child {q : Nat} : IsChildOf sys q root → Descendant sys root q
  | step {p q : Nat} : Descendant sys root p → IsChildOf sys q p → Descendant sys root q

/-- A snapshot on which the recursive descent of collect_child_processes
terminates: no pid is its own strict descendant. -/
def Acyclic (sys : List ProcEntry) : Prop :=
  ∀ p, ¬ Descendant sys p p

/-- A parent-pid chain in the snapshot: each list element is a child of
the previous one, the first being a child of r. -/
def ChainFrom (sys : List ProcEntry) : Nat → List Nat → Prop
  | _, [] => True
  | r, c :: tl => IsChildOf sys c r ∧ ChainFrom sys c tl

/-- Every entry's pid is larger than its parent pid: a simple decidable
certificate that a concrete snapshot is acyclic. -/
def rankedB (sys : List ProcEntry) : Bool :=
  sys.all (fun e =>
    match e.ppid with
    | some p => decide (p < e.pid)
    | none => true)

/-- The session fields touched by cleanup_threads: whether the
shutdown-sender triple is still held (Option ShutdownSenders) and the
child handle if the session still owns it (Option Child, storing the
pid). -/
structure SessionState : Type where
  shutdownSenders : Bool
  child : Option Nat
deriving DecidableEq

/-- Teardown actions: firing the three one-shot shutdown signals, and the
direct kill of the process tree and the child handle. -/
inductive TeardownAct : Type where
  | fireStdout
  | fireStderr
  | fireWait
  | killTree (pid : Nat)
  | killChild (pid : Nat)
deriving DecidableEq

/-- cleanup_threads: take the shutdown senders (at most once) and fire all
three; then take the child handle, and only if the session still owned it
kill the process tree and force-kill the child. Returns the new session
state and the actions performed. -/
def cleanup_threads (s : SessionState) : SessionState × List TeardownAct :=
  let fires : List TeardownAct :=
    if s.shutdownSenders then
      [TeardownAct.fireStdout, TeardownAct.fireStderr, TeardownAct.fireWait]
    else
      []
  match s.child with
  | some pid =>
    (⟨false, none⟩, fires ++ [TeardownAct.killTree pid, TeardownAct.killChild pid])
  | none => (⟨false, none⟩, fires)

/-- The stream a thread-local action belongs to, when it is a line event
of one of the two captured streams. -/
def actStream {M : Type} : Act M → Option StreamId
  | .emit (.stdOutNormal _) => some StreamId.out
  | .emit (.stdOutLog _ _) => some StreamId.out
  | .emit (.stdErrNormal _) => some StreamId.err
  | .emit (.stdErrLog _ _) => some StreamId.err
  | _ => none

/-- t is an interleaving of l1 and l2 that preserves the order of each. -/
inductive Shuffle {α : Type} : List α → List α → List α → Prop where
  | nil : Shuffle [] [] []
  | left {xs ys zs : List α} (a : α) : Shuffle xs ys zs → Shuffle (a :: xs) ys (a :: zs)
  | right {xs ys zs : List α} (a : α) : Shuffle xs ys zs → Shuffle xs (a :: ys) (a :: zs)

/-- t is an interleaving of the three worker traces l1, l2 and l3. -/
def Shuffle3 {α : Type} (l1 l2 l3 t : List α) : Prop :=
  ∃ u, Shuffle l1 l2 u ∧ Shuffle u l3 t

/-- Scan of a global trace checking the one-shot channel discipline for
stream s's completion channel: a recvDone s can only appear after a
sendDone s has appeared. seen records whether the send has been scanned
already. -/
def oneShotScan {M : Type} [DecidableEq M] (s : StreamId) : Bool → List (Act M) → Bool
  | _, [] => true
  | seen, a :: rest =>
    match a with
    | .sendDone s' => oneShotScan s (seen || decide (s' = s)) rest
    | .recvDone s' =>
      if s' = s then seen && oneShotScan s seen rest else oneShotScan s seen rest
    | _ => oneShotScan s seen rest

/-- A global trace respects the completion channel of stream s. -/
def OneShotOk {M : Type} [DecidableEq M] (s : StreamId) (t : List (Act M)) : Prop :=
  oneShotScan s false t = true

/-- Reference function following the spec's words for the log path: each
line is passed to the external parser together with the stream's
persistent parse context, and the resulting optional metadata accompanies
it; the updated context is carried to the next line. -/
def specLogRecords {M C : Type} (parse : String → C → Option M × C) :
    C → List String → List (String × Option M)
  | _, [] => []
  | ctx, l :: ls => (l, (parse l ctx).1) :: specLogRecords parse (parse l ctx).2 ls

theorem readerLoop_cancel_eq_take {M C : Type} (isLog : Bool)
    (parse : String → C → Option M × C) (s : StreamId) :
    ∀ (reads : List ReadResult) (a : Nat) (ctx : C),
      readerLoop isLog parse s (some a) ctx reads =
        readerLoop isLog parse s none ctx (reads.take a)
  | [], _, _ => by simp [readerLoop]
  | _ :: _, 0, _ => by simp [readerLoop]
  | r :: rest, a + 1, ctx => by
    cases r with
    | err => simp [readerLoop]
    | ok line =>
      cases isLog
      · simp [readerLoop, readerLoop_cancel_eq_take false parse s rest a]
      · simp [readerLoop, readerLoop_cancel_eq_take true parse s rest a]

theorem readerLoop_length_le {M C : Type} (isLog : Bool)
    (parse : String → C → Option M × C) (s : StreamId) :
    ∀ (reads : List ReadResult) (cancelIn : Option Nat) (ctx : C),
      (readerLoop isLog parse s cancelIn ctx reads).length ≤ reads.length
  | [], _, _ => by simp [readerLoop]
  | r :: rest, cancelIn, ctx => by
    by_cases hc : cancelIn = some 0
    · simp [readerLoop, hc]
    · cases r with
      | err => simp [readerLoop, hc]
      | ok line =>
        by_cases hl : isLog <;>
          simpa [readerLoop, hc, hl, Nat.succ_le_succ_iff] using
            readerLoop_length_le isLog parse s rest (cancelIn.map (fun n => n - 1)) _

/-- C2: for every line of a captured stream, the reader checks the
cancellation signal before consuming the line; once the signal (arriving
at check number a) is set the loop stops at once: the events are exactly
those of the first a yielded items, and in particular at most a events
are emitted — nothing for the cancelled line or any later line. -/
theorem c2_reader_stops_on_cancel {M C : Type} (isLog : Bool)
    (parse : String → C → Option M × C) (s : StreamId) (a : Nat) (ctx : C)
    (reads : List ReadResult) :
    readerLoop isLog parse s (some a) ctx reads =
        readerLoop isLog parse s none ctx (reads.take a) ∧
      (readerLoop isLog parse s (some a) ctx reads).length ≤ a := by
  refine ⟨readerLoop_cancel_eq_take isLog parse s reads a ctx, ?_⟩
  calc (readerLoop isLog parse s (some a) ctx reads).length
      = (readerLoop isLog parse s none ctx (reads.take a)).length := by
        rw [readerLoop_cancel_eq_take isLog parse s reads a ctx]
    _ ≤ (reads.take a).length := readerLoop_length_le isLog parse s _ none ctx
    _ ≤ a := by simp [List.length_take]

theorem readerLoop_plain_parse_irrelevant {M C : Type}
    (parse₁ parse₂ : String → C → Option M × C) (s : StreamId) :
    ∀ (reads : List ReadResult) (cancelIn : Option Nat) (ctx : C),
      readerLoop false parse₁ s cancelIn ctx reads =
        readerLoop false parse₂ s cancelIn ctx reads
  | [], _, _ => by simp [readerLoop]
  | r :: rest, cancelIn, ctx => by
    by_cases hc : cancelIn = some 0
    · simp [readerLoop, hc]
    · cases r with
      | err => simp [readerLoop, hc]
      | ok line =>
        simp [readerLoop, hc,
          readerLoop_plain_parse_irrelevant parse₁ parse₂ s rest
            (cancelIn.map (fun n => n - 1)) ctx]

theorem readerLoop_plain_verbatim {M C : Type} (parse : String → C → Option M × C)
    (s : StreamId) :
    ∀ (lines : List String) (ctx : C),
      readerLoop false parse s none ctx (lines.map ReadResult.ok) =
        lines.map (fun l => Act.emit (plainEvent s l))
  | [], _ => by simp [readerLoop]
  | l :: ls, ctx => by
    simp [readerLoop, readerLoop_plain_verbatim parse s ls ctx]

theorem readerLoop_log_spec {M C : Type} (parse : String → C → Option M × C)
    (s : StreamId) :
    ∀ (lines : List String) (ctx : C),
      readerLoop true parse s none ctx (lines.map ReadResult.ok) =
        (specLogRecords parse ctx lines).map (fun p => Act.emit (logEvent s p.1 p.2))
  | [], _ => by simp [readerLoop, specLogRecords]
  | l :: ls, ctx => by
    simp [readerLoop, specLogRecords, readerLoop_log_spec parse s ls ((parse l ctx).2)]

/-- C5: with log-mode off the parser is never invoked (the reader's
output does not depend on it at all) and each event carries the line
verbatim; with log-mode on, each line is routed through the external
parser with the stream's persistent context and the resulting optional
metadata accompanies the log-record event, the updated context being
carried to the next line (specLogRecords). -/
theorem c5_log_mode_routing {M C : Type} (parse : String → C → Option M × C)
    (s : StreamId) (lines : List String) (ctx : C) :
    (∀ (parse₁ parse₂ : String → C → Option M × C) (cancelIn : Option Nat)
        (reads : List ReadResult),
        readerLoop false parse₁ s cancelIn ctx reads =
          readerLoop false parse₂ s cancelIn ctx reads) ∧
      readerLoop false parse s none ctx (lines.map ReadResult.ok) =
        lines.map (fun l => Act.emit (plainEvent s l)) ∧
      readerLoop true parse s none ctx (lines.map ReadResult.ok) =
        (specLogRecords parse ctx lines).map (fun p => Act.emit (logEvent s p.1 p.2)) := by
  exact ⟨fun parse₁ parse₂ cancelIn reads =>
      readerLoop_plain_parse_irrelevant parse₁ parse₂ s reads cancelIn ctx,
    readerLoop_plain_verbatim parse s lines ctx,
    readerLoop_log_spec parse s lines ctx⟩

theorem readerLoop_actStream {M C : Type} (isLog : Bool)
    (parse : String → C → Option M × C) (s : StreamId) :
    ∀ (reads : List ReadResult) (cancelIn : Option Nat) (ctx : C),
      ∀ a ∈ readerLoop isLog parse s cancelIn ctx reads, actStream a = some s
  | [], _, _ => by simp [readerLoop]
  | r :: rest, cancelIn, ctx => by
    by_cases hc : cancelIn = some 0
    · simp [readerLoop, hc]
    · cases r with
      | err => simp [readerLoop, hc]
      | ok line =>
        intro a ha
        cases isLog with
        | false =>
          simp [readerLoop, hc] at ha
          rcases ha with h | h
          · subst h; cases s <;> simp [actStream, plainEvent]
          · exact readerLoop_actStream false parse s rest _ _ a h
        | true =>
          simp [readerLoop, hc] at ha
          rcases ha with h | h
          · subst h; cases s <;> simp [actStream, logEvent]
          · exact readerLoop_actStream true parse s rest _ _ a h

theorem readerLoop_absorbs_read_error {M C : Type} (isLog : Bool)
    (parse : String → C → Option M × C) (s : StreamId) (l2 : List ReadResult) :
    ∀ (l1 : List ReadResult) (cancelIn : Option Nat) (ctx : C),
      readerLoop isLog parse s cancelIn ctx (l1 ++ ReadResult.err :: l2) =
        readerLoop isLog parse s cancelIn ctx l1
  | [], cancelIn, ctx => by
    by_cases hc : cancelIn = some 0 <;> simp [readerLoop, hc]
  | r :: rest, cancelIn, ctx => by
    by_cases hc : cancelIn = some 0
    · simp [readerLoop, hc]
    · cases r with
      | err => simp [readerLoop, hc]
      | ok line =>
        cases isLog
        · simp [readerLoop, hc,
            readerLoop_absorbs_read_error false parse s l2 rest
              (cancelIn.map (fun n => n - 1)) ctx]
        · simp [readerLoop, hc,
            readerLoop_absorbs_read_error true parse s l2 rest
              (cancelIn.map (fun n => n - 1)) ((parse line ctx).2)]

/-- C6: a read error ends the reader loop exactly like end of stream,
with nothing reported (no Error event ever appears in a reader's trace);
on loop exit for any reason the reader sends exactly one completion
signal; and an uncaptured stream contributes just the immediately sent
completion signal, with no worker trace. -/
theorem c6_reader_end_and_completion {M C : Type} [DecidableEq M] (isLog : Bool)
    (parse : String → C → Option M × C) (s : StreamId) (cancelIn : Option Nat) (ctx : C) :
    (∀ (l1 l2 : List ReadResult),
        readerLoop isLog parse s cancelIn ctx (l1 ++ ReadResult.err :: l2) =
          readerLoop isLog parse s cancelIn ctx l1) ∧
      (∀ (reads : List ReadResult) (msg : String),
        Act.emit (OutputEvent.error msg) ∉ readerTrace isLog parse s cancelIn ctx reads) ∧
      (∀ reads : List ReadResult,
        (readerTrace isLog parse s cancelIn ctx reads).count (Act.sendDone s) = 1) ∧
      (∀ reads : List ReadResult,
        streamTrace false isLog parse s cancelIn ctx reads = [Act.sendDone s]) := by
  refine ⟨fun l1 l2 => readerLoop_absorbs_read_error isLog parse s l2 l1 cancelIn ctx,
    ?_, ?_, fun reads => by simp [streamTrace]⟩
  · intro reads msg hmem
    rcases List.mem_append.mp hmem with h | h
    · have := readerLoop_actStream isLog parse s reads cancelIn ctx _ h
      simp [actStream] at this
    · simp at h
  · intro reads
    have h0 : (readerLoop isLog parse s cancelIn ctx reads).count (Act.sendDone s) = 0 := by
      refine List.count_eq_zero.mpr (fun hmem => ?_)
      have := readerLoop_actStream isLog parse s reads cancelIn ctx _ hmem
      simp [actStream] at this
    simp [readerTrace, List.count_append, h0]

/-- C3: when a working directory is configured and the normalized path
fails the exists-and-is-directory check, cmd_run emits exactly one Error
event, closes the session, spawns nothing and starts no worker, and no
Exit event can ever be produced for the command. -/
theorem c3_invalid_workdir {M : Type} (unixLike : Bool) (validDir : String → Bool)
    (d : String) (spawnResult : Except String Child)
    (h : validDir (normalizeDir unixLike d) = false) :
    (cmd_run_setup M unixLike validDir (some d) spawnResult).immediateEvents =
        [OutputEvent.error
          ("Working directory does not exist or is not a directory: " ++
            normalizeDir unixLike d)] ∧
      (cmd_run_setup M unixLike validDir (some d) spawnResult).spawned = false ∧
      (cmd_run_setup M unixLike validDir (some d) spawnResult).sessionClosed = true ∧
      (cmd_run_setup M unixLike validDir (some d) spawnResult).stdoutWorker = false ∧
      (cmd_run_setup M unixLike validDir (some d) spawnResult).stderrWorker = false ∧
      (cmd_run_setup M unixLike validDir (some d) spawnResult).watcherWorker = false ∧
      ∀ c : Int,
        OutputEvent.exit c ∉
          (cmd_run_setup M unixLike validDir (some d) spawnResult).immediateEvents := by
  simp [cmd_run_setup, h]

/-- Witness for C3 at a concrete configuration: a filesystem with no
valid directory and working directory "C:\tmp". -/
theorem c3_invalid_workdir_witness :
    (cmd_run_setup Nat true (fun _ => false) (some "nope")
        (Except.ok ⟨1, true, true⟩)).immediateEvents =
        [OutputEvent.error
          ("Working directory does not exist or is not a directory: " ++
            normalizeDir true "nope")] ∧
      (cmd_run_setup Nat true (fun _ => false) (some "nope")
        (Except.ok ⟨1, true, true⟩)).spawned = false ∧
      (cmd_run_setup Nat true (fun _ => false) (some "nope")
        (Except.ok ⟨1, true, true⟩)).sessionClosed = true ∧
      (cmd_run_setup Nat true (fun _ => false) (some "nope")
        (Except.ok ⟨1, true, true⟩)).stdoutWorker = false ∧
      (cmd_run_setup Nat true (fun _ => false) (some "nope")
        (Except.ok ⟨1, true, true⟩)).stderrWorker = false ∧
      (cmd_run_setup Nat true (fun _ => false) (some "nope")
        (Except.ok ⟨1, true, true⟩)).watcherWorker = false ∧
      ∀ c : Int,
        OutputEvent.exit c ∉
          (cmd_run_setup Nat true (fun _ => false) (some "nope")
            (Except.ok ⟨1, true, true⟩)).immediateEvents :=
  c3_invalid_workdir true (fun _ => false) "nope" (Except.ok ⟨1, true, true⟩) rfl

/-- C4: when the working directory check passes (or none is configured)
and the OS refuses to create the process, cmd_run emits exactly one Error
event, closes the session, reports no Exit, and starts neither a reader
nor a watcher worker. -/
theorem c4_spawn_failure {M : Type} (unixLike : Bool) (validDir : String → Bool)
    (wd : Option String) (e : String)
    (h : wd = none ∨ ∃ d, wd = some d ∧ validDir (normalizeDir unixLike d) = true) :
    (cmd_run_setup M unixLike validDir wd (Except.error e)).immediateEvents =
        [OutputEvent.error ("Failed to spawn command: " ++ e)] ∧
      (cmd_run_setup M unixLike validDir wd (Except.error e)).spawned = false ∧
      (cmd_run_setup M unixLike validDir wd (Except.error e)).sessionClosed = true ∧
      (cmd_run_setup M unixLike validDir wd (Except.error e)).stdoutWorker = false ∧
      (cmd_run_setup M unixLike validDir wd (Except.error e)).stderrWorker = false ∧
      (cmd_run_setup M unixLike validDir wd (Except.error e)).watcherWorker = false ∧
      ∀ c : Int,
        OutputEvent.exit c ∉
          (cmd_run_setup M unixLike validDir wd (Except.error e)).immediateEvents := by
  rcases h with h | ⟨d, rfl, hvalid⟩
  · subst h; simp [cmd_run_setup, spawnPhase]
  · simp [cmd_run_setup, hvalid, spawnPhase]

/-- Witness for C4 at a concrete configuration: no working directory and
a spawn refusal with message "No such file or directory". -/
theorem c4_spawn_failure_witness :
    (cmd_run_setup Nat false (fun _ => true) none
        (Except.error "No such file or directory")).immediateEvents =
        [OutputEvent.error ("Failed to spawn command: " ++ "No such file or directory")] ∧
      (cmd_run_setup Nat false (fun _ => true) none
        (Except.error "No such file or directory")).spawned = false ∧
      (cmd_run_setup Nat false (fun _ => true) none
        (Except.error "No such file or directory")).sessionClosed = true ∧
      (cmd_run_setup Nat false (fun _ => true) none
        (Except.error "No such file or directory")).stdoutWorker = false ∧
      (cmd_run_setup Nat false (fun _ => true) none
        (Except.error "No such file or directory")).stderrWorker = false ∧
      (cmd_run_setup Nat false (fun _ => true) none
        (Except.error "No such file or directory")).watcherWorker = false ∧
      ∀ c : Int,
        OutputEvent.exit c ∉
          (cmd_run_setup Nat false (fun _ => true) none
            (Except.error "No such file or directory")).immediateEvents :=
  c4_spawn_failure false (fun _ => true) none "No such file or directory" (Or.inl rfl)

/-- C10: on unix targets the configured working directory has every
backslash replaced by a forward slash before validation; the translated
path (never the original string) is the one validated, reported in the
error message and installed on the child, so two originals with the same
translation behave identically. -/
theorem c10_unix_backslash_translation {M : Type} (validDir : String → Bool)
    (d : String) (spawnResult : Except String Child) :
    (∀ c ∈ (normalizeDir true d).data, c ≠ '\\') ∧
      (validDir (normalizeDir true d) = true →
        (cmd_run_setup M true validDir (some d) spawnResult).currentDir =
          some (normalizeDir true d)) ∧
      (validDir (normalizeDir true d) = false →
        (cmd_run_setup M true validDir (some d) spawnResult).immediateEvents =
          [OutputEvent.error
            ("Working directory does not exist or is not a directory: " ++
              normalizeDir true d)]) ∧
      ∀ d₂, normalizeDir true d₂ = normalizeDir true d →
        cmd_run_setup M true validDir (some d₂) spawnResult =
          cmd_run_setup M true validDir (some d) spawnResult := by
  refine ⟨?_, ?_, ?_, ?_⟩
  · intro c hc
    simp only [normalizeDir, if_pos rfl] at hc
    rcases List.mem_map.mp hc with ⟨x, _, rfl⟩
    by_cases hx : x = '\\' <;> simp [hx]
  · intro h
    cases spawnResult <;> simp [cmd_run_setup, h, spawnPhase]
  · intro h
    simp [cmd_run_setup, h]
  · intro d₂ hd
    simp [cmd_run_setup, hd]

/-- Witness for C10 at the concrete original path "a\b\c" on a
filesystem accepting every directory. -/
theorem c10_unix_backslash_translation_witness :
    (∀ c ∈ (normalizeDir true "a\\b\\c").data, c ≠ '\\') ∧
      (true = true →
        (cmd_run_setup Nat true (fun _ => true) (some "a\\b\\c")
          (Except.ok ⟨1, true, true⟩)).currentDir = some (normalizeDir true "a\\b\\c")) ∧
      (true = false →
        (cmd_run_setup Nat true (fun _ => true) (some "a\\b\\c")
          (Except.ok ⟨1, true, true⟩)).immediateEvents =
          [OutputEvent.error
            ("Working directory does not exist or is not a directory: " ++
              normalizeDir true "a\\b\\c")]) ∧
      ∀ d₂, normalizeDir true d₂ = normalizeDir true "a\\b\\c" →
        cmd_run_setup Nat true (fun _ => true) (some d₂)
            (Except.ok ⟨1, true, true⟩) =
          cmd_run_setup Nat true (fun _ => true) (some "a\\b\\c")
            (Except.ok ⟨1, true, true⟩) :=
  c10_unix_backslash_translation (fun _ => true) "a\\b\\c" (Except.ok ⟨1, true, true⟩)

/-- C8: cancellation is idempotent — cleanup_threads takes the shutdown
senders and the child handle out of the session, so a second run fires
and kills nothing; the direct tree kill happens exactly when the session
still owned the child handle (if ownership was already transferred to the
watcher, the handle is untouched); and cmd_run always hands the child
handle to the watcher before returning, leaving the session without it. -/
theorem c8_cleanup_idempotent (s : SessionState) :
    (cleanup_threads (cleanup_threads s).1).2 = [] ∧
      (cleanup_threads s).1 = ⟨false, none⟩ ∧
      (s.child = none →
        ∀ p, TeardownAct.killTree p ∉ (cleanup_threads s).2 ∧
          TeardownAct.killChild p ∉ (cleanup_threads s).2) ∧
      (∀ p, s.child = some p →
        ∃ fires, (cleanup_threads s).2 =
            fires ++ [TeardownAct.killTree p, TeardownAct.killChild p] ∧
          (s.shutdownSenders = false → fires = [])) ∧
      ∀ (M : Type) (unixLike : Bool) (validDir : String → Bool) (wd : Option String)
        (spawnResult : Except String Child),
        (cmd_run_setup M unixLike validDir wd spawnResult).childInSession = false := by
  obtain ⟨ss, child⟩ := s
  refine ⟨?_, ?_, ?_, ?_, ?_⟩
  · cases child <;> cases ss <;> simp [cleanup_threads]
  · cases child <;> cases ss <;> simp [cleanup_threads]
  · intro h p
    cases ss <;> simp_all [cleanup_threads]
  · intro p h
    cases ss
    · exact ⟨[], by simp_all [cleanup_threads], fun _ => rfl⟩
    · refine ⟨[TeardownAct.fireStdout, TeardownAct.fireStderr, TeardownAct.fireWait], ?_, ?_⟩
      · simp_all [cleanup_threads]
      · intro hss; simp at hss
  · intro M unixLike validDir wd spawnResult
    cases wd with
    | none => cases spawnResult <;> simp [cmd_run_setup, spawnPhase]
    | some d =>
      by_cases hv : validDir (normalizeDir unixLike d) = true
      · cases spawnResult <;> simp [cmd_run_setup, hv, spawnPhase]
      · simp only [Bool.not_eq_true] at hv
        simp [cmd_run_setup, hv]

/-- Witness for C8 at a concrete session that still owns both the sender
triple and the child handle with pid 42. -/
theorem c8_cleanup_idempotent_witness :
    (cleanup_threads (cleanup_threads ⟨true, some 42⟩).1).2 = [] ∧
      (cleanup_threads ⟨true, some 42⟩).1 = ⟨false, none⟩ ∧
      ∃ fires, (cleanup_threads ⟨true, some 42⟩).2 =
        fires ++ [TeardownAct.killTree 42, TeardownAct.killChild 42] := by
  obtain ⟨h1, h2, _, h4, _⟩ := c8_cleanup_idempotent ⟨true, some 42⟩
  obtain ⟨fires, hf, _⟩ := h4 42 rfl
  exact ⟨h1, h2, fires, hf⟩

/-- C9: the watcher never propagates wait/kill OS errors. On the
cancellation path it kills the process tree, force-kills the child and
blocks in wait, substituting -1 when the OS supplies no code or the wait
fails; a try_wait error likewise yields -1; and on any schedule that is
not perpetually still-running the loop reaches the Exited state with some
integer code. -/
theorem c9_watcher_sentinel_codes (M : Type) (pid : Nat) :
    (∀ (w : Option (Option Int)) (rest : List Poll),
        watcherLoop M pid (Poll.cancel w :: rest) =
          some (cancelExitCode w, [Act.killTree pid, Act.killChild, Act.waitChild])) ∧
      cancelExitCode none = -1 ∧
      cancelExitCode (some none) = -1 ∧
      (∀ c : Int, cancelExitCode (some (some c)) = c) ∧
      (∀ rest : List Poll, watcherLoop M pid (Poll.waitErr :: rest) = some (-1, [])) ∧
      ∀ sched : List Poll, (∃ p ∈ sched, p ≠ Poll.stillRunning) →
        ∃ r, watcherLoop M pid sched = some r := by
  refine ⟨fun w rest => rfl, rfl, rfl, fun c => rfl, fun rest => rfl, ?_⟩
  intro sched h
  induction sched with
  | nil => simp at h
  | cons p rest ih =>
    cases p with
    | cancel w => exact ⟨_, rfl⟩
    | exited c => exact ⟨_, rfl⟩
    | waitErr => exact ⟨_, rfl⟩
    | stillRunning =>
      have hrest : ∃ q ∈ rest, q ≠ Poll.stillRunning := by
        rcases h with ⟨q, hq, hne⟩
        rcases List.mem_cons.mp hq with rfl | hq'
        · exact absurd rfl hne
        · exact ⟨q, hq', hne⟩
      obtain ⟨⟨code, acts⟩, hr⟩ := ih hrest
      exact ⟨⟨code, Act.sleepMs 50 :: acts⟩, by simp [watcherLoop, hr]⟩

/-- Witness for C9: a schedule whose second poll hits a try_wait error
still produces an exit code. -/
theorem c9_watcher_sentinel_codes_witness :
    ∃ r, watcherLoop Nat 7 [Poll.stillRunning, Poll.waitErr] = some r :=
  (c9_watcher_sentinel_codes Nat 7).2.2.2.2.2 [Poll.stillRunning, Poll.waitErr]
    ⟨Poll.waitErr, by simp, by simp⟩

theorem desc_lift {sys : List ProcEntry} {parent m q : Nat}
    (hm : IsChildOf sys m parent) (h : Descendant sys m q) : Descendant sys parent q := by
  induction h with
  | child hq => exact Descendant.step (Descendant.child hm) hq
  | step _ hq ih => exact Descendant.step ih hq

theorem collect_sound {sys : List ProcEntry} :
    ∀ (fuel parent q : Nat), q ∈ collect_child_processes sys fuel parent →
      Descendant sys parent q := by
  intro fuel
  induction fuel with
  | zero => intro parent q h; simp [collect_child_processes] at h
  | succ fuel ih =>
    intro parent q h
    simp only [collect_child_processes, List.mem_flatten, List.mem_map] at h
    obtain ⟨l, ⟨e, he, rfl⟩, hq⟩ := h
    have hef := List.mem_filter.mp he
    have hchild : IsChildOf sys e.pid parent := ⟨e, hef.1, rfl, of_decide_eq_true hef.2⟩
    rcases List.mem_append.mp hq with h1 | h1
    · exact desc_lift hchild (ih e.pid q h1)
    · simp only [List.mem_singleton] at h1
      subst h1
      exact Descendant.child hchild

theorem mem_collect_succ {sys : List ProcEntry} {e : ProcEntry} {x r fuel : Nat}
    (he : e ∈ sys) (hp : e.ppid = some r)
    (hx : x ∈ collect_child_processes sys fuel e.pid ++ [e.pid]) :
    x ∈ collect_child_processes sys (fuel + 1) r := by
  simp only [collect_child_processes, List.mem_flatten, List.mem_map]
  exact ⟨collect_child_processes sys fuel e.pid ++ [e.pid],
    ⟨e, List.mem_filter.mpr ⟨he, by simp [hp]⟩, rfl⟩, hx⟩

theorem getLastD_append_eq {α : Type} (ys : List α) :
    ∀ (xs : List α) (d : α), (xs ++ ys).getLastD d = ys.getLastD (xs.getLastD d)
  | [], _ => rfl
  | x :: tl, _ => by
    simp only [List.cons_append, List.getLastD_cons]
    exact getLastD_append_eq ys tl x

theorem chain_append_iff {sys : List ProcEntry} (ys : List Nat) :
    ∀ (xs : List Nat) (r : Nat),
      ChainFrom sys r (xs ++ ys) ↔ ChainFrom sys r xs ∧ ChainFrom sys (xs.getLastD r) ys
  | [], r => by simp [ChainFrom]
  | c :: tl, r => by
    constructor
    · rintro ⟨h1, h2⟩
      have h3 := (chain_append_iff ys tl c).mp h2
      refine ⟨⟨h1, h3.1⟩, ?_⟩
      rw [List.getLastD_cons]
      exact h3.2
    · rintro ⟨⟨h1, h2⟩, h3⟩
      rw [List.getLastD_cons] at h3
      exact ⟨h1, (chain_append_iff ys tl c).mpr ⟨h2, h3⟩⟩

theorem chain_to_descendant {sys : List ProcEntry} {q : Nat} :
    ∀ (l : List Nat) (r : Nat), ChainFrom sys r (l ++ [q]) → Descendant sys r q
  | [], _ => fun h => Descendant.child h.1
  | c :: tl, _ => fun h => desc_lift h.1 (chain_to_descendant tl c h.2)

theorem descendant_to_chain {sys : List ProcEntry} {r q : Nat}
    (h : Descendant sys r q) : ∃ l, ChainFrom sys r (l ++ [q]) := by
  induction h with
  | child hq => exact ⟨[], hq, trivial⟩
  | @step p q hp hq ih =>
    obtain ⟨l, hl⟩ := ih
    refine ⟨l ++ [p], ?_⟩
    have h2 : ChainFrom sys ((l ++ [p]).getLastD r) [q] := by
      have : (l ++ [p]).getLastD r = p := by
        rw [getLastD_append_eq [p] l r]
        rfl
      rw [this]
      exact ⟨hq, trivial⟩
    exact (chain_append_iff [q] (l ++ [p]) r).mpr ⟨hl, h2⟩

theorem chain_to_collect {sys : List ProcEntry} {q : Nat} :
    ∀ (l : List Nat) (r fuel : Nat), ChainFrom sys r (l ++ [q]) →
      l.length + 1 ≤ fuel → q ∈ collect_child_processes sys fuel r
  | [], r, fuel => by
    intro h hf
    obtain ⟨e, he, hpid, hppid⟩ := h.1
    cases fuel with
    | zero => omega
    | succ f =>
      refine mem_collect_succ he hppid ?_
      subst hpid
      simp
  | c :: tl, r, fuel => by
    intro h hf
    obtain ⟨⟨e, he, hpid, hppid⟩, htl⟩ := h
    cases fuel with
    | zero => omega
    | succ f =>
      refine mem_collect_succ he hppid ?_
      subst hpid
      have := chain_to_collect tl e.pid f htl (by simpa using Nat.lt_succ_iff.mp hf)
      exact List.mem_append.mpr (Or.inl this)

theorem chain_subset {sys : List ProcEntry} :
    ∀ (l : List Nat) (r : Nat), ChainFrom sys r l →
      ∀ x ∈ l, x ∈ sys.map (fun e => e.pid)
  | [], _ => by intro _ x hx; simp at hx
  | c :: tl, r => by
    intro h x hx
    rcases List.mem_cons.mp hx with rfl | hx'
    · obtain ⟨e, he, hpid, _⟩ := h.1
      exact List.mem_map.mpr ⟨e, he, hpid⟩
    · exact chain_subset tl c h.2 x hx'

theorem sublist_pair_split {α : Type} {a : α} :
    ∀ {l : List α}, List.Sublist [a, a] l → ∃ l1 l2 l3, l = l1 ++ a :: (l2 ++ a :: l3) := by
  intro l h
  induction l with
  | nil => cases h
  | cons b tl ih =>
    cases h with
    | cons _ h' =>
      obtain ⟨l1, l2, l3, rfl⟩ := ih h'
      exact ⟨b :: l1, l2, l3, rfl⟩
    | cons₂ _ h' =>
      have ha : a ∈ tl := h'.subset (List.mem_singleton_self a)
      obtain ⟨s, t, rfl⟩ := List.append_of_mem ha
      exact ⟨[], s, t, rfl⟩

theorem chain_shorten {sys : List ProcEntry} :
    ∀ (n : Nat) (l : List Nat) (r : Nat), l.length ≤ n → ChainFrom sys r l →
      ∃ l₂, ChainFrom sys r l₂ ∧ l₂.Nodup ∧ l₂.getLastD r = l.getLastD r ∧
        l₂.length ≤ l.length ∧ (l ≠ [] → l₂ ≠ []) := by
  intro n
  induction n with
  | zero =>
    intro l r hl _
    have : l = [] := List.length_eq_zero.mp (Nat.le_zero.mp hl)
    subst this
    exact ⟨[], trivial, List.nodup_nil, rfl, le_rfl, fun h => absurd rfl h⟩
  | succ n ih =>
    intro l r hl hchain
    by_cases hnd : l.Nodup
    · exact ⟨l, hchain, hnd, rfl, le_rfl, fun h => h⟩
    · have hdup : ∃ a, List.Sublist [a, a] l := by
        rw [List.nodup_iff_sublist] at hnd
        push_neg at hnd
        exact hnd
      obtain ⟨x, hx⟩ := hdup
      obtain ⟨l1, l2, l3, rfl⟩ := sublist_pair_split hx
      have h1 := (chain_append_iff (x :: (l2 ++ x :: l3)) l1 r).mp hchain
      have h2 : IsChildOf sys x (l1.getLastD r) ∧ ChainFrom sys x (l2 ++ x :: l3) := h1.2
      have h3 := (chain_append_iff (x :: l3) l2 x).mp h2.2
      have h4 : IsChildOf sys x (l2.getLastD x) ∧ ChainFrom sys x l3 := h3.2
      have hchain' : ChainFrom sys r (l1 ++ x :: l3) :=
        (chain_append_iff (x :: l3) l1 r).mpr ⟨h1.1, h2.1, h4.2⟩
      have hlen' : (l1 ++ x :: l3).length ≤ n := by
        simp only [List.length_append, List.length_cons] at hl ⊢
        omega
      obtain ⟨l₂, hc₂, hnd₂, hlast₂, hlen₂, hne₂⟩ := ih (l1 ++ x :: l3) r hlen' hchain'
      refine ⟨l₂, hc₂, hnd₂, ?_, ?_, ?_⟩
      · rw [hlast₂]
        rw [getLastD_append_eq (x :: l3) l1 r,
          getLastD_append_eq (x :: (l2 ++ x :: l3)) l1 r]
        simp only [List.getLastD_cons]
        rw [getLastD_append_eq (x :: l3) l2 x]
        simp only [List.getLastD_cons]
      · have : (l1 ++ x :: l3).length ≤ (l1 ++ x :: (l2 ++ x :: l3)).length := by
          simp only [List.length_append, List.length_cons]
          omega
        omega
      · intro _
        refine hne₂ ?_
        simp

theorem collect_complete {sys : List ProcEntry} {r q : Nat}
    (h : Descendant sys r q) : q ∈ collect_child_processes sys sys.length r := by
  obtain ⟨l, hl⟩ := descendant_to_chain h
  obtain ⟨l₂, hchain₂, hnd₂, hlast₂, _, hne₂⟩ :=
    chain_shorten (l ++ [q]).length (l ++ [q]) r le_rfl hl
  have hne : l₂ ≠ [] := hne₂ (by simp)
  obtain ⟨l₂', b, hceq⟩ := (List.eq_nil_or_concat l₂).resolve_left hne
  rw [List.concat_eq_append] at hceq
  subst hceq
  have hb : b = q := by
    have h1 : (l₂' ++ [b]).getLastD r = b := by
      rw [getLastD_append_eq [b] l₂' r]; rfl
    have h2 : (l ++ [q]).getLastD r = q := by
      rw [getLastD_append_eq [q] l r]; rfl
    rw [h1, h2] at hlast₂
    exact hlast₂
  subst hb
  have hbound : (l₂' ++ [b]).length ≤ sys.length := by
    have hsub : l₂' ++ [b] ⊆ sys.map (fun e => e.pid) :=
      fun x hx => chain_subset (l₂' ++ [b]) r hchain₂ x hx
    have := (hnd₂.subperm hsub).length_le
    simpa using this
  refine chain_to_collect l₂' r sys.length hchain₂ ?_
  simpa using hbound

/-- C7: for any snapshot (on which the recursive walk terminates) the
kill-candidate list of kill_process_tree contains exactly the processes
whose parent-pid ancestry traces back to the root, plus the root itself;
the trace consists of a Term signal to every candidate present in the
first snapshot, then the 100ms grace sleep, then a Kill signal to every
candidate still present in the refreshed snapshot — no Kill before the
sleep and no Term after it. -/
theorem c7_kill_process_tree (sys1 sys2 : List ProcEntry) (root : Nat)
    (_hacyc : Acyclic sys1) :
    (∀ q, q ∈ killCandidates sys1 root ↔ (Descendant sys1 root q ∨ q = root)) ∧
      ∃ pre post,
        kill_process_tree sys1 sys2 root = pre ++ KillAct.sleep100 :: post ∧
          (∀ q, KillAct.term q ∈ pre ↔
            q ∈ killCandidates sys1 root ∧ processAlive sys1 q = true) ∧
          (∀ q, KillAct.kill q ∈ post ↔
            q ∈ killCandidates sys1 root ∧ processAlive sys2 q = true) ∧
          (∀ q, KillAct.kill q ∉ pre) ∧ (∀ q, KillAct.term q ∉ post) := by
  constructor
  · intro q
    constructor
    · intro hmem
      rcases List.mem_append.mp hmem with h | h
      · exact Or.inl (collect_sound sys1.length root q h)
      · simp only [List.mem_singleton] at h
        exact Or.inr h
    · intro hd
      rcases hd with hd | rfl
      · exact List.mem_append.mpr (Or.inl (collect_complete hd))
      · exact List.mem_append.mpr (Or.inr (List.mem_singleton_self q))
  · refine ⟨((killCandidates sys1 root).filter (processAlive sys1)).map KillAct.term,
      ((killCandidates sys1 root).filter (processAlive sys2)).map KillAct.kill, ?_, ?_, ?_, ?_, ?_⟩
    · simp [kill_process_tree]
    · intro q
      simp [List.mem_filter]
    · intro q
      simp [List.mem_filter]
    · intro q h
      rcases List.mem_map.mp h with ⟨p, _, hp⟩
      cases hp
    · intro q h
      rcases List.mem_map.mp h with ⟨p, _, hp⟩
      cases hp

/-- Witness for C7 on a snapshot with a child, grandchild and
great-grandchild of root 1, where the grandchild 3 is the only process
still alive at the second snapshot. -/
theorem c7_kill_process_tree_witness :
    (∀ q, q ∈ killCandidates [⟨2, some 1⟩, ⟨3, some 2⟩, ⟨4, some 3⟩] 1 ↔
        (Descendant [⟨2, some 1⟩, ⟨3, some 2⟩, ⟨4, some 3⟩] 1 q ∨ q = 1)) ∧
      ∃ pre post,
        kill_process_tree [⟨2, some 1⟩, ⟨3, some 2⟩, ⟨4, some 3⟩] [⟨3, some 2⟩] 1 =
            pre ++ KillAct.sleep100 :: post ∧
          (∀ q, KillAct.term q ∈ pre ↔
            q ∈ killCandidates [⟨2, some 1⟩, ⟨3, some 2⟩, ⟨4, some 3⟩] 1 ∧
              processAlive [⟨2, some 1⟩, ⟨3, some 2⟩, ⟨4, some 3⟩] q = true) ∧
          (∀ q, KillAct.kill q ∈ post ↔
            q ∈ killCandidates [⟨2, some 1⟩, ⟨3, some 2⟩, ⟨4, some 3⟩] 1 ∧
              processAlive [⟨3, some 2⟩] q = true) ∧
          (∀ q, KillAct.kill q ∉ pre) ∧ (∀ q, KillAct.term q ∉ post) := by
  refine c7_kill_process_tree [⟨2, some 1⟩, ⟨3, some 2⟩, ⟨4, some 3⟩] [⟨3, some 2⟩] 1 ?_
  have hrank : ∀ e ∈ ([⟨2, some 1⟩, ⟨3, some 2⟩, ⟨4, some 3⟩] : List ProcEntry),
      ∀ p, e.ppid = some p → p < e.pid := by
    intro e he p hp
    fin_cases he <;> (cases hp; decide)
  have key : ∀ r q, Descendant [⟨2, some 1⟩, ⟨3, some 2⟩, ⟨4, some 3⟩] r q → r < q := by
    intro r q hd
    induction hd with
    | child hq =>
      obtain ⟨e, he, rfl, hp⟩ := hq
      exact hrank e he _ hp
    | step _ hq ih =>
      obtain ⟨e, he, rfl, hpp⟩ := hq
      exact lt_trans ih (hrank e he _ hpp)
  intro p hp
  exact lt_irrefl p (key p p hp)

theorem shuffle_nil_any {α : Type} : ∀ (l : List α), Shuffle [] l l
  | [] => Shuffle.nil
  | a :: tl => Shuffle.right a (shuffle_nil_any tl)

theorem shuffle_append {α : Type} : ∀ (l1 l2 : List α), Shuffle l1 l2 (l1 ++ l2)
  | [], l2 => shuffle_nil_any l2
  | a :: tl, l2 => Shuffle.left a (shuffle_append tl l2)

theorem shuffle_nil_right_aux {α : Type} {l y t : List α} (h : Shuffle l y t) :
    y = [] → t = l := by
  induction h with
  | nil => intro _; rfl
  | left a _ ih => intro hy; rw [ih hy]
  | right a _ ih => intro hy; cases hy

theorem shuffle_nil_right {α : Type} {l t : List α} (h : Shuffle l [] t) : t = l :=
  shuffle_nil_right_aux h rfl

theorem shuffle_count {α : Type} [DecidableEq α] {l1 l2 t : List α}
    (h : Shuffle l1 l2 t) (x : α) : t.count x = l1.count x + l2.count x := by
  induction h with
  | nil => simp
  | left a _ ih =>
    rw [List.count_cons, List.count_cons, ih]
    ring
  | right a _ ih =>
    rw [List.count_cons, List.count_cons, ih]
    ring

theorem shuffle_mem {α : Type} {l1 l2 t : List α} (h : Shuffle l1 l2 t) (x : α) :
    x ∈ t ↔ x ∈ l1 ∨ x ∈ l2 := by
  induction h with
  | nil => simp
  | left a _ ih =>
    simp only [List.mem_cons, ih]
    tauto
  | right a _ ih =>
    simp only [List.mem_cons, ih]
    tauto

theorem shuffle_split {α : Type} :
    ∀ (u : List α) {v l1 l2 : List α}, Shuffle l1 l2 (u ++ v) →
      ∃ a b c d, l1 = a ++ b ∧ l2 = c ++ d ∧ Shuffle a c u ∧ Shuffle b d v
  | [], v, l1, l2 => fun h => ⟨[], l1, [], l2, rfl, rfl, Shuffle.nil, h⟩
  | x :: u', v, l1, l2 => fun h => by
    cases h with
    | left a h' =>
      obtain ⟨p, b, c, d, h1, h2, hs1, hs2⟩ := shuffle_split u' h'
      exact ⟨x :: p, b, c, d, by rw [h1]; rfl, h2, Shuffle.left x hs1, hs2⟩
    | right a h' =>
      obtain ⟨p, b, c, d, h1, h2, hs1, hs2⟩ := shuffle_split u' h'
      exact ⟨p, b, x :: c, d, h1, by rw [h2]; rfl, Shuffle.right x hs1, hs2⟩

theorem shuffle3_count {α : Type} [DecidableEq α] {l1 l2 l3 t : List α}
    (h : Shuffle3 l1 l2 l3 t) (x : α) :
    t.count x = l1.count x + l2.count x + l3.count x := by
  obtain ⟨u, h12, h3⟩ := h
  rw [shuffle_count h3 x, shuffle_count h12 x]

theorem oneShotScan_decompose {M : Type} [DecidableEq M] (s : StreamId) :
    ∀ (u : List (Act M)) (seen : Bool) (v : List (Act M)),
      oneShotScan s seen (u ++ Act.recvDone s :: v) = true →
      Act.sendDone s ∈ u ∨ seen = true
  | [], seen, v => by
    intro h
    simp only [List.nil_append, oneShotScan, eq_self_iff_true, if_true, Bool.and_eq_true] at h
    exact Or.inr h.1
  | a :: u', seen, v => by
    intro h
    rw [List.cons_append] at h
    cases a with
    | sendDone s' =>
      simp only [oneShotScan] at h
      rcases oneShotScan_decompose s u' _ v h with h1 | h1
      · exact Or.inl (List.mem_cons_of_mem _ h1)
      · rcases Bool.or_eq_true_iff.mp h1 with h2 | h2
        · exact Or.inr h2
        · have hs : s' = s := of_decide_eq_true h2
          subst hs
          exact Or.inl (List.mem_cons_self _ _)
    | recvDone s' =>
      by_cases hs : s' = s
      · subst hs
        simp only [oneShotScan, eq_self_iff_true, if_true, Bool.and_eq_true] at h
        exact Or.inr h.1
      · simp only [oneShotScan, if_neg hs] at h
        rcases oneShotScan_decompose s u' seen v h with h1 | h1
        · exact Or.inl (List.mem_cons_of_mem _ h1)
        · exact Or.inr h1
    | emit e =>
      simp only [oneShotScan] at h
      rcases oneShotScan_decompose s u' seen v h with h1 | h1
      · exact Or.inl (List.mem_cons_of_mem _ h1)
      · exact Or.inr h1
    | killTree p =>
      simp only [oneShotScan] at h
      rcases oneShotScan_decompose s u' seen v h with h1 | h1
      · exact Or.inl (List.mem_cons_of_mem _ h1)
      · exact Or.inr h1
    | killChild =>
      simp only [oneShotScan] at h
      rcases oneShotScan_decompose s u' seen v h with h1 | h1
      · exact Or.inl (List.mem_cons_of_mem _ h1)
      · exact Or.inr h1
    | waitChild =>
      simp only [oneShotScan] at h
      rcases oneShotScan_decompose s u' seen v h with h1 | h1
      · exact Or.inl (List.mem_cons_of_mem _ h1)
      · exact Or.inr h1
    | sleepMs n =>
      simp only [oneShotScan] at h
      rcases oneShotScan_decompose s u' seen v h with h1 | h1
      · exact Or.inl (List.mem_cons_of_mem _ h1)
      · exact Or.inr h1

theorem oneShot_send_before_recv {M : Type} [DecidableEq M] {s : StreamId}
    {t u v : List (Act M)} (h : OneShotOk s t) (ht : t = u ++ Act.recvDone s :: v) :
    Act.sendDone s ∈ u := by
  subst ht
  rcases oneShotScan_decompose s u false v h with h1 | h1
  · exact h1
  · cases h1

theorem append_single_eq {α : Type} {A c d : List α} {b : α}
    (h : A ++ [b] = c ++ b :: d) (hb : b ∉ d) : d = [] ∧ c = A := by
  rcases List.eq_nil_or_concat d with rfl | ⟨d', y, hd⟩
  · refine ⟨rfl, ?_⟩
    have := List.append_inj' h rfl
    exact this.1.symm
  · rw [List.concat_eq_append] at hd
    subst hd
    have h' : A ++ [b] = (c ++ b :: d') ++ [y] := by
      rw [h]
      simp
    have h2 := List.append_inj' h' rfl
    have hby : b = y := by
      have := h2.2
      simpa using this
    subst hby
    exact absurd (List.mem_append.mpr (Or.inr (List.mem_singleton_self b))) hb

theorem last_mem_suffix {α : Type} {A p q : List α} {b : α}
    (h : A ++ [b] = p ++ q) (hq : q ≠ []) : b ∈ q := by
  rcases List.eq_nil_or_concat q with rfl | ⟨q', y, hqe⟩
  · exact absurd rfl hq
  · rw [List.concat_eq_append] at hqe
    subst hqe
    have h' : A ++ [b] = (p ++ q') ++ [y] := by rw [h]; simp
    have h2 := List.append_inj' h' rfl
    have hby : b = y := by simpa using h2.2
    subst hby
    exact List.mem_append.mpr (Or.inr (List.mem_singleton_self b))

theorem count_eq_zero_of_all_ne {α : Type} [DecidableEq α] {l : List α} {x : α}
    (h : ∀ a ∈ l, a ≠ x) : l.count x = 0 :=
  List.count_eq_zero.mpr (fun hm => h x hm rfl)

theorem count_streamTrace_sendDone {M C : Type} [DecidableEq M] (captured isLog : Bool)
    (parse : String → C → Option M × C) (s : StreamId) (cancelIn : Option Nat) (ctx : C)
    (reads : List ReadResult) :
    (streamTrace captured isLog parse s cancelIn ctx reads).count (Act.sendDone s) = 1 := by
  cases captured with
  | false => simp [streamTrace]
  | true =>
    have h0 : (readerLoop isLog parse s cancelIn ctx reads).count (Act.sendDone s) = 0 :=
      count_eq_zero_of_all_ne (fun a ha he => by
        have := readerLoop_actStream isLog parse s reads cancelIn ctx a ha
        rw [he] at this
        simp [actStream] at this)
    simp [streamTrace, readerTrace, List.count_append, h0]

theorem count_streamTrace_other {M C : Type} [DecidableEq M] (captured isLog : Bool)
    (parse : String → C → Option M × C) (s : StreamId) (cancelIn : Option Nat) (ctx : C)
    (reads : List ReadResult) {x : Act M} (hx1 : actStream x ≠ some s)
    (hx2 : x ≠ Act.sendDone s) :
    (streamTrace captured isLog parse s cancelIn ctx reads).count x = 0 := by
  cases captured with
  | false =>
    simp only [streamTrace, if_neg (Bool.false_ne_true)]
    exact count_eq_zero_of_all_ne (fun a ha he => by
      simp only [List.mem_singleton] at ha
      subst ha
      exact hx2 (he.symm ▸ rfl))
  | true =>
    have h0 : (readerLoop isLog parse s cancelIn ctx reads).count x = 0 :=
      count_eq_zero_of_all_ne (fun a ha he => by
        have := readerLoop_actStream isLog parse s reads cancelIn ctx a ha
        rw [he] at this
        exact hx1 this)
    have h1 : ([Act.sendDone s] : List (Act M)).count x = 0 :=
      count_eq_zero_of_all_ne (fun a ha he => by
        simp only [List.mem_singleton] at ha
        subst ha
        exact hx2 (he.symm ▸ rfl))
    simp [streamTrace, readerTrace, List.count_append, h0, h1]

theorem watcherLoop_acts {M : Type} (pid : Nat) :
    ∀ (sched : List Poll) (code : Int) (acts : List (Act M)),
      watcherLoop M pid sched = some (code, acts) →
      ∀ a ∈ acts,
        a = Act.killTree pid ∨ a = Act.killChild ∨ a = Act.waitChild ∨ a = Act.sleepMs 50 := by
  intro sched
  induction sched with
  | nil => intro code acts h; simp [watcherLoop] at h
  | cons p rest ih =>
    intro code acts h a ha
    cases p with
    | cancel w =>
      simp only [watcherLoop, Option.some.injEq, Prod.mk.injEq] at h
      rw [← h.2] at ha
      simp only [List.mem_cons, List.mem_singleton] at ha
      rcases ha with rfl | rfl | rfl | hfalse
      · exact Or.inl rfl
      · exact Or.inr (Or.inl rfl)
      · exact Or.inr (Or.inr (Or.inl rfl))
      · cases hfalse
    | exited c =>
      simp only [watcherLoop, Option.some.injEq, Prod.mk.injEq] at h
      rw [← h.2] at ha
      cases ha
    | waitErr =>
      simp only [watcherLoop, Option.some.injEq, Prod.mk.injEq] at h
      rw [← h.2] at ha
      cases ha
    | stillRunning =>
      simp only [watcherLoop] at h
      cases hrec : watcherLoop M pid rest with
      | none => rw [hrec] at h; cases h
      | some r =>
        rw [hrec] at h
        obtain ⟨code', acts'⟩ := r
        simp only [Option.some.injEq, Prod.mk.injEq] at h
        rw [← h.2] at ha
        rcases List.mem_cons.mp ha with rfl | ha'
        · exact Or.inr (Or.inr (Or.inr rfl))
        · exact ih code' acts' (by rw [hrec, h.1]) a ha'

theorem watcherTrace_decomp {M : Type} (hasOut hasErr : Bool) (code : Int)
    (acts : List (Act M)) :
    watcherTrace M hasOut hasErr code acts =
      (acts ++ (if hasOut then [Act.recvDone StreamId.out] else []) ++
          (if hasErr then [Act.recvDone StreamId.err] else [])) ++
        [Act.emit (OutputEvent.exit code)] := by
  simp [watcherTrace, watcherTail]

theorem count_single {α : Type} [DecidableEq α] (x y : α) :
    ([x] : List α).count y = if y = x then 1 else 0 := by
  by_cases h : y = x
  · subst h; simp
  · simp [List.count_cons, h]

theorem count_watcherTrace_emit {M : Type} [DecidableEq M] {pid : Nat} {acts : List (Act M)}
    (hacts : ∀ a ∈ acts,
      a = Act.killTree pid ∨ a = Act.killChild ∨ a = Act.waitChild ∨ a = Act.sleepMs 50)
    (hasOut hasErr : Bool) (code : Int) (e : OutputEvent M) :
    (watcherTrace M hasOut hasErr code acts).count (Act.emit e) =
      if e = OutputEvent.exit code then 1 else 0 := by
  rw [watcherTrace_decomp, List.count_append, List.count_append, List.count_append]
  have h1 : acts.count (Act.emit e) = 0 :=
    count_eq_zero_of_all_ne (fun a ha => by
      rcases hacts a ha with rfl | rfl | rfl | rfl <;> simp)
  have h2 : (if hasOut then [Act.recvDone StreamId.out] else []).count (Act.emit e) = 0 := by
    cases hasOut <;> simp
  have h3 : (if hasErr then [Act.recvDone StreamId.err] else []).count (Act.emit e) = 0 := by
    cases hasErr <;> simp
  rw [h1, h2, h3, count_single]
  simp

theorem count_watcherTrace_sendDone_zero {M : Type} [DecidableEq M] {pid : Nat}
    {acts : List (Act M)}
    (hacts : ∀ a ∈ acts,
      a = Act.killTree pid ∨ a = Act.killChild ∨ a = Act.waitChild ∨ a = Act.sleepMs 50)
    (hasOut hasErr : Bool) (code : Int) (s : StreamId) :
    (watcherTrace M hasOut hasErr code acts).count (Act.sendDone s) = 0 := by
  rw [watcherTrace_decomp, List.count_append, List.count_append, List.count_append]
  have h1 : acts.count (Act.sendDone s) = 0 :=
    count_eq_zero_of_all_ne (fun a ha => by
      rcases hacts a ha with rfl | rfl | rfl | rfl <;> simp)
  have h2 : ((if hasOut then [Act.recvDone StreamId.out] else []) : List (Act M)).count
      (Act.sendDone s) = 0 := by
    cases hasOut <;> simp
  have h3 : ((if hasErr then [Act.recvDone StreamId.err] else []) : List (Act M)).count
      (Act.sendDone s) = 0 := by
    cases hasErr <;> simp
  rw [h1, h2, h3, count_single]
  simp

theorem count_watcherTrace_recvDone_zero {M : Type} [DecidableEq M] {pid : Nat}
    {acts : List (Act M)}
    (hacts : ∀ a ∈ acts,
      a = Act.killTree pid ∨ a = Act.killChild ∨ a = Act.waitChild ∨ a = Act.sleepMs 50)
    {hasOut hasErr : Bool} (code : Int) {s : StreamId}
    (hs : (s = StreamId.out → hasOut = false) ∧ (s = StreamId.err → hasErr = false)) :
    (watcherTrace M hasOut hasErr code acts).count (Act.recvDone s) = 0 := by
  rw [watcherTrace_decomp, List.count_append, List.count_append, List.count_append]
  have h1 : acts.count (Act.recvDone s) = 0 :=
    count_eq_zero_of_all_ne (fun a ha => by
      rcases hacts a ha with rfl | rfl | rfl | rfl <;> simp)
  have h2 : ((if hasOut then [Act.recvDone StreamId.out] else []) : List (Act M)).count
      (Act.recvDone s) = 0 := by
    cases s with
    | out => rw [hs.1 rfl]; simp
    | err => cases hasOut <;> simp
  have h3 : ((if hasErr then [Act.recvDone StreamId.err] else []) : List (Act M)).count
      (Act.recvDone s) = 0 := by
    cases s with
    | out => cases hasErr <;> simp
    | err => rw [hs.2 rfl]; simp
  rw [h1, h2, h3, count_single]
  simp

/-- C1: for every successfully spawned command whose watcher loop reaches
an exit code, every interleaving of the two stream traces and the watcher
trace that respects the one-shot completion channels contains the
Exit{code} emission exactly once and as the last emission; the emission
comes after the watcher received the stdout (resp. stderr) completion
signal whenever that stream was captured, and for an uncaptured stream no
completion receive occurs at all (the wait is skipped). -/
theorem c1_exit_once_and_last {M C : Type} [DecidableEq M]
    (hasOut hasErr outLog errLog : Bool)
    (parse : String → C → Option M × C)
    (cancelOut cancelErr : Option Nat) (ctxOut ctxErr : C)
    (readsOut readsErr : List ReadResult)
    (pid : Nat) (sched : List Poll) (code : Int) (wacts : List (Act M))
    (hw : watcherLoop M pid sched = some (code, wacts))
    (t : List (Act M))
    (hsh : Shuffle3
      (streamTrace hasOut outLog parse StreamId.out cancelOut ctxOut readsOut)
      (streamTrace hasErr errLog parse StreamId.err cancelErr ctxErr readsErr)
      (watcherTrace M hasOut hasErr code wacts) t)
    (hOut : OneShotOk StreamId.out t) (hErr : OneShotOk StreamId.err t) :
    ∃ u v, t = u ++ Act.emit (OutputEvent.exit code) :: v ∧
      (∀ e : OutputEvent M, Act.emit e ∉ v) ∧
      (∀ c : Int, c ≠ code → Act.emit (OutputEvent.exit c) ∉ t) ∧
      Act.emit (OutputEvent.exit code) ∉ u ∧
      (hasOut = true → Act.recvDone StreamId.out ∈ u) ∧
      (hasErr = true → Act.recvDone StreamId.err ∈ u) ∧
      (hasOut = false → Act.recvDone StreamId.out ∉ t) ∧
      (hasErr = false → Act.recvDone StreamId.err ∉ t) := by
  have hacts := watcherLoop_acts pid sched code wacts hw
  set l1 := streamTrace hasOut outLog parse StreamId.out cancelOut ctxOut readsOut with hl1
  set l2 := streamTrace hasErr errLog parse StreamId.err cancelErr ctxErr readsErr with hl2
  set l3 := watcherTrace M hasOut hasErr code wacts with hl3
  have hcnt : ∀ x : Act M, t.count x = l1.count x + l2.count x + l3.count x :=
    shuffle3_count hsh
  have hexit_l1 : ∀ c : Int, l1.count (Act.emit (OutputEvent.exit c)) = 0 := by
    intro c
    rw [hl1]
    exact count_streamTrace_other _ _ _ _ _ _ _ (by simp [actStream]) (by simp)
  have hexit_l2 : ∀ c : Int, l2.count (Act.emit (OutputEvent.exit c)) = 0 := by
    intro c
    rw [hl2]
    exact count_streamTrace_other _ _ _ _ _ _ _ (by simp [actStream]) (by simp)
  have hexit_t : ∀ c : Int, t.count (Act.emit (OutputEvent.exit c)) =
      if c = code then 1 else 0 := by
    intro c
    rw [hcnt, hexit_l1, hexit_l2, hl3, count_watcherTrace_emit hacts]
    simp
  have hsend_l3 : ∀ s, l3.count (Act.sendDone s) = 0 := by
    intro s
    rw [hl3]
    exact count_watcherTrace_sendDone_zero hacts hasOut hasErr code s
  have hsend_out_t : t.count (Act.sendDone StreamId.out) = 1 := by
    have a1 : l1.count (Act.sendDone StreamId.out) = 1 := by
      rw [hl1]
      exact count_streamTrace_sendDone _ _ _ _ _ _ _
    have a2 : l2.count (Act.sendDone StreamId.out) = 0 := by
      rw [hl2]
      exact count_streamTrace_other _ _ _ _ _ _ _ (by simp [actStream]) (by simp)
    rw [hcnt, a1, a2, hsend_l3]
  have hsend_err_t : t.count (Act.sendDone StreamId.err) = 1 := by
    have a1 : l2.count (Act.sendDone StreamId.err) = 1 := by
      rw [hl2]
      exact count_streamTrace_sendDone _ _ _ _ _ _ _
    have a2 : l1.count (Act.sendDone StreamId.err) = 0 := by
      rw [hl1]
      exact count_streamTrace_other _ _ _ _ _ _ _ (by simp [actStream]) (by simp)
    rw [hcnt, a1, a2, hsend_l3]
  have hmem_exit : Act.emit (OutputEvent.exit code) ∈ t := by
    by_contra hmem
    have h0 := List.count_eq_zero_of_not_mem hmem
    have h1 := hexit_t code
    rw [if_pos rfl, h0] at h1
    cases h1
  obtain ⟨u, v, ht⟩ := List.append_of_mem hmem_exit
  have hucount : u.count (Act.emit (OutputEvent.exit code)) = 0 ∧
      v.count (Act.emit (OutputEvent.exit code)) = 0 := by
    have h1 := hexit_t code
    rw [if_pos rfl, ht, List.count_append, List.count_cons] at h1
    simp at h1
    omega
  have hnotin_u : Act.emit (OutputEvent.exit code) ∉ u := List.count_eq_zero.mp hucount.1
  obtain ⟨u0, h12, h03⟩ := hsh
  rw [ht] at h03
  obtain ⟨u0a, u0b, l3a, l3b, hu0eq, hl3eq, hsa, hsb⟩ := shuffle_split u h03
  have hu0_exit : u0.count (Act.emit (OutputEvent.exit code)) = 0 := by
    rw [shuffle_count h12, hexit_l1, hexit_l2]
  cases hsb with
  | left a h' =>
    exfalso
    have hmem : Act.emit (OutputEvent.exit code) ∈ u0 := by
      rw [hu0eq]
      exact List.mem_append.mpr (Or.inr (List.mem_cons_self _ _))
    exact absurd hmem (List.count_eq_zero.mp hu0_exit)
  | right a h' =>
    rename_i l3tail
    have hl3cnt : l3.count (Act.emit (OutputEvent.exit code)) = 1 := by
      rw [hl3, count_watcherTrace_emit hacts]
      simp
    have hl3tail_notmem : Act.emit (OutputEvent.exit code) ∉ l3tail := by
      rw [hl3eq, List.count_append, List.count_cons] at hl3cnt
      simp at hl3cnt
      have h0 : l3tail.count (Act.emit (OutputEvent.exit code)) = 0 := by omega
      exact List.count_eq_zero.mp h0
    have hdec : (wacts ++ (if hasOut then [Act.recvDone StreamId.out] else []) ++
        (if hasErr then [Act.recvDone StreamId.err] else [])) ++
        [Act.emit (OutputEvent.exit code)] =
        l3a ++ Act.emit (OutputEvent.exit code) :: l3tail := by
      rw [← watcherTrace_decomp, ← hl3]
      exact hl3eq
    obtain ⟨htail_nil, hl3a_eq⟩ := append_single_eq hdec hl3tail_notmem
    subst htail_nil
    have hveq : v = u0b := shuffle_nil_right h'
    rw [hu0eq] at h12
    obtain ⟨p1, q1, p2, q2, hl1eq, hl2eq, hpa, hqb⟩ := shuffle_split u0a h12
    have hrecv_out : hasOut = true → Act.recvDone StreamId.out ∈ u := by
      intro hho
      have hW : Act.recvDone StreamId.out ∈ l3a := by
        rw [hl3a_eq, hho]
        simp
      exact (shuffle_mem hsa _).mpr (Or.inr hW)
    have hrecv_err : hasErr = true → Act.recvDone StreamId.err ∈ u := by
      intro hhe
      have hW : Act.recvDone StreamId.err ∈ l3a := by
        rw [hl3a_eq, hhe]
        simp
      exact (shuffle_mem hsa _).mpr (Or.inr hW)
    have hsend_not_v : ∀ s : StreamId, Act.recvDone s ∈ u → Act.sendDone s ∉ v := by
      intro s hrecv hmemv
      obtain ⟨u1, u2, hu12⟩ := List.append_of_mem hrecv
      have hone : OneShotOk s t := by
        cases s with
        | out => exact hOut
        | err => exact hErr
      have ht' : t = u1 ++ Act.recvDone s :: (u2 ++ Act.emit (OutputEvent.exit code) :: v) := by
        rw [ht, hu12]
        simp
      have hsend_u1 : Act.sendDone s ∈ u1 := oneShot_send_before_recv hone ht'
      have hts : t.count (Act.sendDone s) = 1 := by
        cases s with
        | out => exact hsend_out_t
        | err => exact hsend_err_t
      rw [ht, List.count_append, List.count_cons] at hts
      have hcu : 1 ≤ u.count (Act.sendDone s) := by
        have hmu : Act.sendDone s ∈ u := by
          rw [hu12]
          exact List.mem_append.mpr (Or.inl hsend_u1)
        exact Nat.one_le_iff_ne_zero.mpr (fun h0 => (List.count_eq_zero.mp h0) hmu)
      have hcv : 1 ≤ v.count (Act.sendDone s) :=
        Nat.one_le_iff_ne_zero.mpr (fun h0 => (List.count_eq_zero.mp h0) hmemv)
      simp at hts
      omega
    have hnoemit_v : ∀ e : OutputEvent M, Act.emit e ∉ v := by
      intro e hmemv
      rw [hveq] at hmemv
      rcases (shuffle_mem hqb _).mp hmemv with hq1m | hq2m
      · cases hasOut with
        | false =>
          have hmem1 : Act.emit e ∈ l1 := by
            rw [hl1eq]
            exact List.mem_append.mpr (Or.inr hq1m)
          rw [hl1] at hmem1
          simp [streamTrace] at hmem1
        | true =>
          have hq1ne : q1 ≠ [] := fun h => by rw [h] at hq1m; cases hq1m
          have h5 : readerLoop outLog parse StreamId.out cancelOut ctxOut readsOut ++
              [Act.sendDone StreamId.out] = p1 ++ q1 := by
            have h6 : streamTrace true outLog parse StreamId.out cancelOut ctxOut readsOut =
                p1 ++ q1 := by
              rw [← hl1]
              exact hl1eq
            simpa [streamTrace, readerTrace] using h6
          have hlast : Act.sendDone StreamId.out ∈ q1 := last_mem_suffix h5 hq1ne
          have hsv : Act.sendDone StreamId.out ∈ v := by
            rw [hveq]
            exact (shuffle_mem hqb _).mpr (Or.inl hlast)
          exact hsend_not_v StreamId.out (hrecv_out rfl) hsv
      · cases hasErr with
        | false =>
          have hmem1 : Act.emit e ∈ l2 := by
            rw [hl2eq]
            exact List.mem_append.mpr (Or.inr hq2m)
          rw [hl2] at hmem1
          simp [streamTrace] at hmem1
        | true =>
          have hq2ne : q2 ≠ [] := fun h => by rw [h] at hq2m; cases hq2m
          have h5 : readerLoop errLog parse StreamId.err cancelErr ctxErr readsErr ++
              [Act.sendDone StreamId.err] = p2 ++ q2 := by
            have h6 : streamTrace true errLog parse StreamId.err cancelErr ctxErr readsErr =
                p2 ++ q2 := by
              rw [← hl2]
              exact hl2eq
            simpa [streamTrace, readerTrace] using h6
          have hlast : Act.sendDone StreamId.err ∈ q2 := last_mem_suffix h5 hq2ne
          have hsv : Act.sendDone StreamId.err ∈ v := by
            rw [hveq]
            exact (shuffle_mem hqb _).mpr (Or.inr hlast)
          exact hsend_not_v StreamId.err (hrecv_err rfl) hsv
    have hexit_ne : ∀ c : Int, c ≠ code → Act.emit (OutputEvent.exit c) ∉ t := by
      intro c hc hmem
      have h0 := hexit_t c
      rw [if_neg hc] at h0
      exact (List.count_eq_zero.mp h0) hmem
    have hnorecv_out : hasOut = false → Act.recvDone StreamId.out ∉ t := by
      intro hho hmem
      have h0 : t.count (Act.recvDone StreamId.out) = 0 := by
        have a1 : l1.count (Act.recvDone StreamId.out) = 0 := by
          rw [hl1]
          exact count_streamTrace_other _ _ _ _ _ _ _ (by simp [actStream]) (by simp)
        have a2 : l2.count (Act.recvDone StreamId.out) = 0 := by
          rw [hl2]
          exact count_streamTrace_other _ _ _ _ _ _ _ (by simp [actStream]) (by simp)
        have a3 : l3.count (Act.recvDone StreamId.out) = 0 := by
          rw [hl3]
          exact count_watcherTrace_recvDone_zero hacts code
            ⟨fun _ => hho, fun h => absurd h (by simp)⟩
        rw [hcnt, a1, a2, a3]
      exact (List.count_eq_zero.mp h0) hmem
    have hnorecv_err : hasErr = false → Act.recvDone StreamId.err ∉ t := by
      intro hhe hmem
      have h0 : t.count (Act.recvDone StreamId.err) = 0 := by
        have a1 : l1.count (Act.recvDone StreamId.err) = 0 := by
          rw [hl1]
          exact count_streamTrace_other _ _ _ _ _ _ _ (by simp [actStream]) (by simp)
        have a2 : l2.count (Act.recvDone StreamId.err) = 0 := by
          rw [hl2]
          exact count_streamTrace_other _ _ _ _ _ _ _ (by simp [actStream]) (by simp)
        have a3 : l3.count (Act.recvDone StreamId.err) = 0 := by
          rw [hl3]
          exact count_watcherTrace_recvDone_zero hacts code
            ⟨fun h => absurd h (by simp), fun _ => hhe⟩
        rw [hcnt, a1, a2, a3]
      exact (List.count_eq_zero.mp h0) hmem
    exact ⟨u, v, ht, hnoemit_v, hexit_ne, hnotin_u, hrecv_out, hrecv_err,
      hnorecv_out, hnorecv_err⟩

/-- Witness for C1: a command with stdout captured (one line "a"), stderr
not captured, and a spontaneous exit with code 0, on the fully sequential
interleaving of the three traces. -/
theorem c1_exit_once_and_last_witness :
    ∃ u v,
      ([Act.emit (OutputEvent.stdOutNormal "a"), Act.sendDone StreamId.out,
          Act.sendDone StreamId.err, Act.recvDone StreamId.out,
          Act.emit (OutputEvent.exit 0)] : List (Act Nat)) =
        u ++ Act.emit (OutputEvent.exit 0) :: v ∧
      (∀ e : OutputEvent Nat, Act.emit e ∉ v) ∧
      (∀ c : Int, c ≠ 0 →
        Act.emit (OutputEvent.exit c) ∉
          ([Act.emit (OutputEvent.stdOutNormal "a"), Act.sendDone StreamId.out,
            Act.sendDone StreamId.err, Act.recvDone StreamId.out,
            Act.emit (OutputEvent.exit 0)] : List (Act Nat))) ∧
      Act.emit (OutputEvent.exit 0) ∉ u ∧
      (true = true → Act.recvDone StreamId.out ∈ u) ∧
      (false = true → Act.recvDone StreamId.err ∈ u) ∧
      (true = false →
        Act.recvDone StreamId.out ∉
          ([Act.emit (OutputEvent.stdOutNormal "a"), Act.sendDone StreamId.out,
            Act.sendDone StreamId.err, Act.recvDone StreamId.out,
            Act.emit (OutputEvent.exit 0)] : List (Act Nat))) ∧
      (false = false →
        Act.recvDone StreamId.err ∉
          ([Act.emit (OutputEvent.stdOutNormal "a"), Act.sendDone StreamId.out,
            Act.sendDone StreamId.err, Act.recvDone StreamId.out,
            Act.emit (OutputEvent.exit 0)] : List (Act Nat))) :=
  c1_exit_once_and_last true false false false
    (fun (_ : String) (c : Nat) => ((none : Option Nat), c))
    none none 0 0 [ReadResult.ok "a"] [] 5 [Poll.exited (some 0)] 0 [] rfl
    [Act.emit (OutputEvent.stdOutNormal "a"), Act.sendDone StreamId.out,
      Act.sendDone StreamId.err, Act.recvDone StreamId.out, Act.emit (OutputEvent.exit 0)]
    ⟨_, shuffle_append _ _, shuffle_append _ _⟩ rfl rfl

/-- Witness for C6 at a concrete plain-mode stdout reader with no
cancellation. -/
theorem c6_reader_end_and_completion_witness :
    (∀ (l1 l2 : List ReadResult),
        readerLoop false (fun (_ : String) (c : Nat) => ((none : Option Nat), c)) StreamId.out
            none 0 (l1 ++ ReadResult.err :: l2) =
          readerLoop false (fun (_ : String) (c : Nat) => ((none : Option Nat), c)) StreamId.out
            none 0 l1) ∧
      (∀ (reads : List ReadResult) (msg : String),
        Act.emit (OutputEvent.error msg) ∉
          readerTrace false (fun (_ : String) (c : Nat) => ((none : Option Nat), c)) StreamId.out
            none 0 reads) ∧
      (∀ reads : List ReadResult,
        (readerTrace false (fun (_ : String) (c : Nat) => ((none : Option Nat), c)) StreamId.out
            none 0 reads).count (Act.sendDone StreamId.out) = 1) ∧
      (∀ reads : List ReadResult,
        streamTrace false false (fun (_ : String) (c : Nat) => ((none : Option Nat), c))
            StreamId.out none 0 reads = [Act.sendDone StreamId.out]) :=
  c6_reader_end_and_completion false (fun (_ : String) (c : Nat) => ((none : Option Nat), c))
    StreamId.out none 0

end TenExec
